import Mathlib

/-!
# Verification of the ant-farm colony simulation core

Shallow embedding of `src/Task2_SE/main.cpp`.

The C++ program simulates colonies (`AntFarm`) of entities (`Ant` and its
subclasses `DroneAnt`, `WarriorAnt`, `QueenAnt`) that consume a shared food
supply over discrete ticks, orchestrated by a `Meadow` holding all farms.

Modelling choices:
* `Ant` objects live on a heap (`Heap := AntId → Ant`), mirroring the
  `shared_ptr<Ant>` aliasing in the C++ code: a farm's `ants` vector and its
  `queen` pointer store ids into that heap, and `AntFarm::setQueen` pushing
  the queen onto `ants` is an id append.
* Machine `int` becomes `Int` (the program's arithmetic stays far from any
  overflow boundary, and the claims are about exact small-number arithmetic).
* The per-subclass virtual `act()` is a match on the `AntType` tag, which each
  C++ subclass constructor fixes once and the program never changes.
* `Room` objects are ignored: `AntFarm::tick` never reads `rooms`, so they
  have no effect on any behaviour considered here.
-/

namespace AntSim

/-- `enum class AntType` from the source. -/
inductive AntType where
  | DRONE
  | WARRIOR
  | QUEEN
deriving DecidableEq, Repr

/-- `class Species`: pure immutable data. -/
structure Species where
  speciesName : String
  strengthBonus : Int
  efficiencyBonus : Int
  harvestBonus : Int
deriving DecidableEq, Repr

/-- The mutable state of one `Ant` object (base-class fields; each subclass
only fixes `type` and overrides `act`). -/
structure Ant where
  name : String
  species : Species
  type : AntType
  energy : Int
  foodConsumption : Int
deriving DecidableEq, Repr

/-- The `Ant` base-class constructor: `energy(100), foodConsumption(10)`.
Instantiating it at `AntType.DRONE` / `.WARRIOR` / `.QUEEN` is exactly the
`DroneAnt` / `WarriorAnt` / `QueenAnt` subclass constructor. -/
def Ant.init (name : String) (species : Species) (type : AntType) : Ant :=
  { name := name, species := species, type := type, energy := 100, foodConsumption := 10 }

/-- `Ant::rest`: `energy = min(100, energy + 20)`. -/
def Ant.rest (a : Ant) : Ant :=
  { a with energy := min 100 (a.energy + 20) }

/-- `Ant::work`: `energy = max(0, energy - 10)`. -/
def Ant.work (a : Ant) : Ant :=
  { a with energy := max 0 (a.energy - 10) }

/-- `Ant::needsRest`: `energy < 30`. -/
def Ant.needsRest (a : Ant) : Bool :=
  a.energy < 30

/-- `Ant::consumeFood(int &foodSupply)`: deducts `foodConsumption` when the
supply suffices, returning whether it did, together with the new supply. -/
def Ant.consumeFood (a : Ant) (foodSupply : Int) : Bool × Int :=
  if a.foodConsumption ≤ foodSupply then (true, foodSupply - a.foodConsumption)
  else (false, foodSupply)

/-- The virtual `act()`: `DroneAnt::act` and `WarriorAnt::act` rest when
`needsRest()` and work otherwise; `QueenAnt::act` works when `!needsRest()`
and otherwise does nothing. -/
def Ant.act (a : Ant) : Ant :=
  match a.type with
  | AntType.QUEEN => if a.needsRest then a else a.work
  | AntType.DRONE => if a.needsRest then a.rest else a.work
  | AntType.WARRIOR => if a.needsRest then a.rest else a.work

/-- Heap ids standing in for `shared_ptr<Ant>` identities. -/
abbrev AntId := Nat

/-- The object heap: every id denotes an `Ant` object state. -/
abbrev Heap := AntId → Ant

/-- Writing one object on the heap (mutation through a pointer). -/
def update (h : Heap) (id : AntId) (a : Ant) : Heap :=
  fun j => if j = id then a else h j

/-- `class AntFarm` state: the `queen` pointer and the `ants` vector hold heap
ids; `rooms` is omitted (never read by the simulation logic). -/
structure AntFarm where
  name : String
  species : Species
  queen : Option AntId
  ants : List AntId
  foodSupply : Int
  isActive : Bool
deriving DecidableEq, Repr

/-- The `AntFarm` constructor: `foodSupply(1000), isActive(true)`, no queen,
empty ant vector. -/
def AntFarm.init (name : String) (species : Species) : AntFarm :=
  { name := name, species := species, queen := none, ants := [],
    foodSupply := 1000, isActive := true }

/-- `AntFarm::setQueen`: stores the queen pointer and pushes it onto `ants`
(unconditionally — the source has no membership check). -/
def AntFarm.setQueen (f : AntFarm) (q : AntId) : AntFarm :=
  { f with queen := some q, ants := f.ants ++ [q] }

/-- `AntFarm::addAnt`: pushes onto `ants`. -/
def AntFarm.addAnt (f : AntFarm) (a : AntId) : AntFarm :=
  { f with ants := f.ants ++ [a] }

/-- The loop body of `AntFarm::tick`: for each ant in order, `act()` then
`consumeFood(foodSupply)`; the first failed withdrawal stops the loop.
Returns the heap, the remaining food, and whether the loop ran to completion
(`false` means `isActive = false; return;` fired). -/
def tickLoop : List AntId → Heap → Int → Heap × Int × Bool
  | [], h, food => (h, food, true)
  | id :: rest, h, food =>
    if (Ant.consumeFood (Ant.act (h id)) food).1 then
      tickLoop rest (update h id (Ant.act (h id))) (Ant.consumeFood (Ant.act (h id)) food).2
    else
      (update h id (Ant.act (h id)), (Ant.consumeFood (Ant.act (h id)) food).2, false)

/-- `AntFarm::tick`: no-op when `!isActive || !queen`, else run the member
loop, updating the food supply and the active flag. -/
def AntFarm.tick (f : AntFarm) (h : Heap) : AntFarm × Heap :=
  if !f.isActive || f.queen.isNone then (f, h)
  else
    ({ f with foodSupply := (tickLoop f.ants h f.foodSupply).2.1,
              isActive := (tickLoop f.ants h f.foodSupply).2.2 },
     (tickLoop f.ants h f.foodSupply).1)

/-- `AntFarm::isActiveColony`: `isActive && queen != nullptr`. -/
def AntFarm.isActiveColony (f : AntFarm) : Bool :=
  f.isActive && f.queen.isSome

/-- Ghost observation of `AntFarm::tick`'s loop: the ids for which
`consumeFood` is invoked, in order. This follows the source loop literally:
every iteration that is reached calls `consumeFood` exactly once, and a failed
call ends the loop. -/
def tickAttempts : List AntId → Heap → Int → List AntId
  | [], _, _ => []
  | id :: rest, h, food =>
    if (Ant.consumeFood (Ant.act (h id)) food).1 then
      id :: tickAttempts rest (update h id (Ant.act (h id))) (Ant.consumeFood (Ant.act (h id)) food).2
    else
      [id]

/-- The ids whose withdrawal `AntFarm::tick` attempts (none when the tick is
a guarded no-op). -/
def AntFarm.tickAttemptIds (f : AntFarm) (h : Heap) : List AntId :=
  if !f.isActive || f.queen.isNone then [] else tickAttempts f.ants h f.foodSupply

/-- `class Meadow` state (the singleton aspect and the random species
generation are setup concerns outside the simulation core). -/
structure Meadow where
  species : List Species
  farms : List AntFarm

/-- `Meadow::simulationComplete`: the count of farms with
`isActiveColony() == true` is at most 1. -/
def Meadow.simulationComplete (m : Meadow) : Bool :=
  decide (m.farms.countP (fun f => f.isActiveColony) ≤ 1)

/-- `Meadow::tick`: tick every farm in order (farms share the object heap). -/
def Meadow.tick (m : Meadow) (h : Heap) : Meadow × Heap :=
  match go m.farms h with
  | (fs, h2) => ({ m with farms := fs }, h2)
where
  go : List AntFarm → Heap → List AntFarm × Heap
    | [], h => ([], h)
    | f :: rest, h =>
      match go rest (f.tick h).2 with
      | (fs, h2) => ((f.tick h).1 :: fs, h2)

/-- Iterated `Ant` steps (an entity's `act()` applied `n` times). -/
def actIter : Nat → Ant → Ant
  | 0, a => a
  | n + 1, a => actIter n a.act

/-- Iterated colony ticks. -/
def tickIter : Nat → AntFarm → Heap → AntFarm × Heap
  | 0, f, h => (f, h)
  | n + 1, f, h => tickIter n (f.tick h).1 (f.tick h).2

/-- Total consumption rate of a list of members, read off a heap. -/
def sumRates (h : Heap) (l : List AntId) : Int :=
  (l.map (fun i => (h i).foodConsumption)).sum

/-! ## Concrete sample objects (used by witnesses and counterexamples) -/

/-- A sample species. -/
def sp0 : Species :=
  { speciesName := "SpeciesA", strengthBonus := 5, efficiencyBonus := 6, harvestBonus := 7 }

/-- A freshly constructed queen object. -/
def queen0 : Ant := Ant.init "Queen1" sp0 AntType.QUEEN

/-- A freshly constructed drone object. -/
def drone0 : Ant := Ant.init "Drone1" sp0 AntType.DRONE

/-- A sample heap: object 0 is a queen, every other id a drone. -/
def heap0 : Heap := fun i => if i = 0 then queen0 else drone0

/-! ## Basic lemmas about the entity operations -/

theorem act_foodConsumption (a : Ant) : a.act.foodConsumption = a.foodConsumption := by
  rcases a with ⟨n, s, t, e, c⟩
  cases t <;> (dsimp [Ant.act]; split <;> rfl)

theorem act_type (a : Ant) : a.act.type = a.type := by
  rcases a with ⟨n, s, t, e, c⟩
  cases t <;> (dsimp [Ant.act]; split <;> rfl)

theorem consumeFood_pos (a : Ant) (pool : Int) (hle : a.foodConsumption ≤ pool) :
    a.consumeFood pool = (true, pool - a.foodConsumption) := by
  simp [Ant.consumeFood, hle]

theorem consumeFood_neg (a : Ant) (pool : Int) (hlt : pool < a.foodConsumption) :
    a.consumeFood pool = (false, pool) := by
  simp [Ant.consumeFood, not_le.mpr hlt]

theorem update_same (h : Heap) (id : AntId) (a : Ant) : update h id a id = a := by
  simp [update]

theorem update_other (h : Heap) (id : AntId) (a : Ant) (j : AntId) (hj : j ≠ id) :
    update h id a j = h j := by
  simp [update, hj]

/-- Acting on one object and writing it back never changes any object's
consumption rate. -/
theorem update_act_foodConsumption (h : Heap) (id : AntId) (j : AntId) :
    (update h id (Ant.act (h id)) j).foodConsumption = (h j).foodConsumption := by
  by_cases hj : j = id
  · subst hj
    rw [update_same, act_foodConsumption]
  · rw [update_other h id _ j hj]

theorem sumRates_nil (h : Heap) : sumRates h [] = 0 := rfl

theorem sumRates_cons (h : Heap) (id : AntId) (l : List AntId) :
    sumRates h (id :: l) = (h id).foodConsumption + sumRates h l := by
  simp [sumRates]

theorem sumRates_nonneg (h : Heap) (l : List AntId)
    (hr : ∀ i ∈ l, 0 ≤ (h i).foodConsumption) : 0 ≤ sumRates h l := by
  induction l with
  | nil => simp [sumRates_nil]
  | cons id rest ih =>
    rw [sumRates_cons]
    have h1 := hr id (List.mem_cons_self id rest)
    have h2 := ih (fun i hi => hr i (List.mem_cons_of_mem id hi))
    omega

/-- Acting on one object and writing it back leaves every rate sum unchanged. -/
theorem sumRates_update_act (h : Heap) (id : AntId) (l : List AntId) :
    sumRates (update h id (Ant.act (h id))) l = sumRates h l := by
  induction l with
  | nil => rfl
  | cons j rest ih =>
    rw [sumRates_cons, sumRates_cons, ih, update_act_foodConsumption]

/-! ## C5: per-entity step semantics -/

/-- The per-step energy update exactly as the specification words it: a
non-Leader entity rests to `min(100, energy + 20)` below the threshold and
works to `max(0, energy - 10)` otherwise; a Leader-kind entity works when
`energy >= 30` and is left unchanged when `energy < 30`. -/
def stepSpecEnergy (t : AntType) (energy : Int) : Int :=
  if t = AntType.QUEEN then
    if 30 ≤ energy then max 0 (energy - 10) else energy
  else
    if energy < 30 then min 100 (energy + 20) else max 0 (energy - 10)

/-- C5: one `step()` (the virtual `act()`) updates the energy of every entity
exactly as the spec describes: non-Leader kinds rest below the threshold and
work at or above it, while a Leader-kind entity works at or above the
threshold and does nothing below it. -/
theorem act_energy_eq_stepSpecEnergy (a : Ant) :
    a.act.energy = stepSpecEnergy a.type a.energy := by
  rcases a with ⟨n, s, t, e, c⟩
  cases t <;>
    simp only [Ant.act, Ant.needsRest, Ant.rest, Ant.work, stepSpecEnergy] <;>
    split_ifs with h1 h2 <;> simp_all <;> omega

/-! ## C6: withdrawal semantics -/

/-- C6: `withdraw(pool)` (`Ant::consumeFood`) returns true and deducts exactly
`consumptionRate` when the pool suffices, and returns false leaving the pool
untouched when it does not. -/
theorem consumeFood_spec (a : Ant) (pool : Int) :
    (a.foodConsumption ≤ pool → a.consumeFood pool = (true, pool - a.foodConsumption)) ∧
    (pool < a.foodConsumption → a.consumeFood pool = (false, pool)) :=
  ⟨consumeFood_pos a pool, consumeFood_neg a pool⟩

/-- Witness for C6 at a concrete drone (rate 10) and pools 15 and 5. -/
theorem consumeFood_spec_witness :
    drone0.consumeFood 15 = (true, 5) ∧ drone0.consumeFood 5 = (false, 5) :=
  ⟨(consumeFood_spec drone0 15).1 (by decide), (consumeFood_spec drone0 5).2 (by decide)⟩

/-! ## C10: constructor defaults -/

/-- C10: every entity is constructed with `energy = 100` and
`consumptionRate = 10`, and every colony with `resourcePool = 1000` and
`active = true`, for all constructor inputs. -/
theorem init_defaults (an fn : String) (s s2 : Species) (t : AntType) :
    (Ant.init an s t).energy = 100 ∧ (Ant.init an s t).foodConsumption = 10 ∧
    (AntFarm.init fn s2).foodSupply = 1000 ∧ (AntFarm.init fn s2).isActive = true :=
  ⟨rfl, rfl, rfl, rfl⟩

/-! ## C1: setLeader behaviour -/

/-- C1 counterexample: `setQueen` appends unconditionally. Starting from a
fresh farm whose queen 0 has already been set (so 0 is already a member),
calling `setQueen 0` again grows the member list to `[0, 0]` instead of
leaving it unchanged — refuting "adds e to the members sequence only if e is
not already present". -/
theorem setQueen_dup_counterexample :
    (heap0 0).type = AntType.QUEEN ∧
    (0 : AntId) ∈ ((AntFarm.init "Colony1" sp0).setQueen 0).ants ∧
    (((AntFarm.init "Colony1" sp0).setQueen 0).setQueen 0).ants = [0, 0] ∧
    ¬ (((AntFarm.init "Colony1" sp0).setQueen 0).setQueen 0).ants
        = ((AntFarm.init "Colony1" sp0).setQueen 0).ants := by
  refine ⟨rfl, ?_, rfl, ?_⟩ <;> decide

/-- C1 (amended): `setLeader(e)` with a Leader-kind entity stores `e` as the
leader and appends `e` to the members sequence unconditionally (even when
already present); a further `setLeader(q)` replaces the stored leader
reference but leaves the previous leader in the members sequence. -/
theorem setQueen_replace_append (f : AntFarm) (h : Heap) (p q : AntId)
    (hp : (h p).type = AntType.QUEEN) (hq : (h q).type = AntType.QUEEN) :
    (f.setQueen p).queen = some p ∧
    (f.setQueen p).ants = f.ants ++ [p] ∧
    ((f.setQueen p).setQueen q).queen = some q ∧
    ((f.setQueen p).setQueen q).ants = f.ants ++ [p, q] ∧
    p ∈ ((f.setQueen p).setQueen q).ants := by
  refine ⟨rfl, rfl, rfl, by simp [AntFarm.setQueen], by simp [AntFarm.setQueen]⟩

/-- Witness for C1's amended theorem at a concrete farm and two queen ids. -/
theorem setQueen_replace_append_witness :
    (heap0 0).type = AntType.QUEEN ∧
    ((AntFarm.init "Colony1" sp0).setQueen 0).queen = some 0 ∧
    (((AntFarm.init "Colony1" sp0).setQueen 0).setQueen 0).ants = [0, 0] := by
  have H := setQueen_replace_append (AntFarm.init "Colony1" sp0) heap0 0 0 rfl rfl
  exact ⟨rfl, H.1, by rw [H.2.2.2.1]; rfl⟩

/-! ## C3: energy bounds invariant -/

/-- One `act()` keeps the energy inside `[0, 100]`. -/
theorem act_preserves_bounds (a : Ant) (h0 : 0 ≤ a.energy) (h1 : a.energy ≤ 100) :
    0 ≤ a.act.energy ∧ a.act.energy ≤ 100 := by
  rcases a with ⟨n, s, t, e, c⟩
  cases t <;>
    simp only [Ant.act, Ant.needsRest, Ant.rest, Ant.work] <;>
    split_ifs <;> simp_all <;> omega

/-- C3: starting from any energy in `[0, 100]`, every sequence of `step()`
calls keeps the energy in `[0, 100]` (stated for the state reached after any
number of steps, hence after each individual step of any sequence). -/
theorem actIter_energy_bounds (a : Ant) (n : Nat) (h0 : 0 ≤ a.energy) (h1 : a.energy ≤ 100) :
    0 ≤ (actIter n a).energy ∧ (actIter n a).energy ≤ 100 := by
  induction n generalizing a with
  | zero => exact ⟨h0, h1⟩
  | succ n ih =>
    have hb := act_preserves_bounds a h0 h1
    exact ih a.act hb.1 hb.2

/-- Witness for C3 on a freshly built queen, five steps. -/
theorem actIter_energy_bounds_witness :
    (0 ≤ queen0.energy ∧ queen0.energy ≤ 100) ∧
    (0 ≤ (actIter 5 queen0).energy ∧ (actIter 5 queen0).energy ≤ 100) :=
  ⟨by decide, actIter_energy_bounds queen0 5 (by decide) (by decide)⟩

/-! ## Tick guard lemmas (shared) -/

/-- An inactive or queenless farm takes the early-return branch of `tick`. -/
theorem tick_noop_of_guard (f : AntFarm) (h : Heap)
    (hg : f.isActive = false ∨ f.queen = none) : f.tick h = (f, h) := by
  have hb : (!f.isActive || f.queen.isNone) = true := by
    rcases hg with h1 | h1 <;> simp [h1]
  simp [AntFarm.tick, hb]

/-- An active farm with a queen does not take the early-return branch. -/
theorem guard_eq_false (f : AntFarm) (hact : f.isActive = true) (hq : f.queen.isSome = true) :
    (!f.isActive || f.queen.isNone) = false := by
  rcases hfq : f.queen with _ | q
  · rw [hfq] at hq
    simp at hq
  · simp [hact, hfq]

/-- `tick` written out for a farm that passes the guard. -/
theorem tick_open (f : AntFarm) (h : Heap)
    (hg : (!f.isActive || f.queen.isNone) = false) :
    f.tick h = ({ f with foodSupply := (tickLoop f.ants h f.foodSupply).2.1,
                         isActive := (tickLoop f.ants h f.foodSupply).2.2 },
                (tickLoop f.ants h f.foodSupply).1) := by
  simp [AntFarm.tick, hg]

/-! ## C7: dead or leaderless colonies are frozen -/

/-- C7: a colony whose `active` flag is false or whose leader is unset is
frozen: any number of `tick` calls leaves the farm (resource pool and active
flag included) and the whole object heap (hence every member's energy)
exactly unchanged, and `isAlive` stays false. -/
theorem dead_colony_frozen (f : AntFarm) (h : Heap) (n : Nat)
    (hg : f.isActive = false ∨ f.queen = none) :
    tickIter n f h = (f, h) ∧ (tickIter n f h).1.isActiveColony = false := by
  have key : tickIter n f h = (f, h) := by
    induction n with
    | zero => rfl
    | succ n ih =>
      show tickIter n (f.tick h).1 (f.tick h).2 = (f, h)
      rw [tick_noop_of_guard f h hg]
      exact ih
  refine ⟨key, ?_⟩
  rw [key]
  rcases hg with h1 | h1 <;> simp [AntFarm.isActiveColony, h1]

/-- Witness for C7 on a freshly built (hence leaderless) farm, four ticks. -/
theorem dead_colony_frozen_witness :
    (AntFarm.init "Colony1" sp0).queen = none ∧
    tickIter 4 (AntFarm.init "Colony1" sp0) heap0 = (AntFarm.init "Colony1" sp0, heap0) ∧
    (tickIter 4 (AntFarm.init "Colony1" sp0) heap0).1.isActiveColony = false := by
  have H := dead_colony_frozen (AntFarm.init "Colony1" sp0) heap0 4 (Or.inr rfl)
  exact ⟨rfl, H.1, H.2⟩

/-! ## C8: a single-colony world is complete from the start -/

/-- C8: a world holding exactly one colony reports `simulationComplete()`
before any tick, whatever that colony's state: the count of alive colonies is
bounded by the number of colonies, which is 1. -/
theorem single_colony_complete (m : Meadow) (hm : m.farms.length = 1) :
    m.simulationComplete = true := by
  have hc : m.farms.countP (fun f => f.isActiveColony) ≤ 1 := by
    calc m.farms.countP (fun f => f.isActiveColony) ≤ m.farms.length :=
          List.countP_le_length _
    _ = 1 := hm
  simp [Meadow.simulationComplete, hc]

/-- A one-colony meadow whose single farm is alive. -/
def meadow1 : Meadow :=
  { species := [sp0], farms := [(AntFarm.init "Colony1" sp0).setQueen 0] }

/-- Witness for C8 on a one-colony meadow whose colony is alive. -/
theorem single_colony_complete_witness :
    meadow1.farms.length = 1 ∧ meadow1.simulationComplete = true :=
  ⟨rfl, single_colony_complete meadow1 rfl⟩

/-! ## C4: the pool only decreases and never goes negative -/

/-- The member loop can only shrink the pool (given nonnegative consumption
rates) and never drives a nonnegative pool negative. -/
theorem tickLoop_pool (l : List AntId) : ∀ (h : Heap) (pool : Int),
    (∀ i ∈ l, 0 ≤ (h i).foodConsumption) →
    (tickLoop l h pool).2.1 ≤ pool ∧ (0 ≤ pool → 0 ≤ (tickLoop l h pool).2.1) := by
  induction l with
  | nil => exact fun h pool _ => ⟨le_refl pool, fun h0 => h0⟩
  | cons id rest ih =>
    intro h pool hr
    have hrate : (Ant.act (h id)).foodConsumption = (h id).foodConsumption :=
      act_foodConsumption (h id)
    have hid0 : 0 ≤ (h id).foodConsumption := hr id (List.mem_cons_self id rest)
    by_cases hc : (Ant.act (h id)).foodConsumption ≤ pool
    · have hcf := consumeFood_pos (Ant.act (h id)) pool hc
      have hr2 : ∀ i ∈ rest, 0 ≤ ((update h id (Ant.act (h id))) i).foodConsumption := by
        intro i hi
        rw [update_act_foodConsumption]
        exact hr i (List.mem_cons_of_mem id hi)
      obtain ⟨ihle, ihnn⟩ :=
        ih (update h id (Ant.act (h id))) (pool - (Ant.act (h id)).foodConsumption) hr2
      simp only [tickLoop, hcf]
      constructor
      · exact le_trans ihle (by omega)
      · exact fun _ => ihnn (by omega)
    · have hcf := consumeFood_neg (Ant.act (h id)) pool (not_le.mp hc)
      simp only [tickLoop, hcf]
      exact ⟨le_refl pool, fun h0 => h0⟩

/-- C4: over one tick of any colony whose members' consumption rates are
nonnegative (all entities are built with rate 10), the resource pool can only
decrease, and a nonnegative pool stays nonnegative; the tick never adds to
the pool. -/
theorem tick_pool_monotone (f : AntFarm) (h : Heap)
    (hr : ∀ i ∈ f.ants, 0 ≤ (h i).foodConsumption) :
    ((f.tick h).1.foodSupply ≤ f.foodSupply ∧
     (0 ≤ f.foodSupply → 0 ≤ (f.tick h).1.foodSupply)) ∧
    (∀ q, (f.setQueen q).foodSupply = f.foodSupply) ∧
    (∀ q, (f.addAnt q).foodSupply = f.foodSupply) := by
  refine ⟨?_, fun q => rfl, fun q => rfl⟩
  by_cases hg : (!f.isActive || f.queen.isNone) = true
  · have : f.tick h = (f, h) := by
      simp only [AntFarm.tick, hg]
      rfl
    rw [this]
    exact ⟨le_refl _, fun h0 => h0⟩
  · have hg2 : (!f.isActive || f.queen.isNone) = false := by
      revert hg
      cases (!f.isActive || f.queen.isNone) <;> simp
    rw [tick_open f h hg2]
    exact tickLoop_pool f.ants h f.foodSupply hr

/-- A live two-member farm over `heap0`, used by the C4 witness. -/
def farmAB : AntFarm :=
  ((AntFarm.init "Colony1" sp0).setQueen 0).addAnt 1

/-- Witness for C4 on a live two-member farm with the constructed pool 1000. -/
theorem tick_pool_monotone_witness :
    (∀ i ∈ farmAB.ants, 0 ≤ (heap0 i).foodConsumption) ∧
    (farmAB.tick heap0).1.foodSupply ≤ farmAB.foodSupply ∧
    (0 ≤ farmAB.foodSupply → 0 ≤ (farmAB.tick heap0).1.foodSupply) ∧
    (farmAB.setQueen 5).foodSupply = farmAB.foodSupply ∧
    (farmAB.addAnt 5).foodSupply = farmAB.foodSupply := by
  have H := tick_pool_monotone farmAB heap0 (by decide)
  exact ⟨by decide, H.1.1, H.1.2, H.2.1 5, H.2.2 5⟩

/-! ## Splitting the member loop at the first failed withdrawal (shared) -/

/-- The member loop never writes to objects outside its member list. -/
theorem tickLoop_frame (l : List AntId) : ∀ (h : Heap) (pool : Int) (j : AntId), j ∉ l →
    (tickLoop l h pool).1 j = h j := by
  induction l with
  | nil => exact fun h pool j _ => rfl
  | cons id rest ih =>
    intro h pool j hj
    have hjid : j ≠ id := fun e => hj (e ▸ List.mem_cons_self id rest)
    have hjrest : j ∉ rest := fun e => hj (List.mem_cons_of_mem id e)
    by_cases hc : (Ant.act (h id)).foodConsumption ≤ pool
    · have hcf := consumeFood_pos (Ant.act (h id)) pool hc
      have hred : tickLoop (id :: rest) h pool
          = tickLoop rest (update h id (Ant.act (h id)))
              (pool - (Ant.act (h id)).foodConsumption) := by
        simp [tickLoop, hcf]
      rw [hred, ih _ _ j hjrest, update_other _ _ _ j hjid]
    · have hcf := consumeFood_neg (Ant.act (h id)) pool (not_le.mp hc)
      have hred : tickLoop (id :: rest) h pool
          = (update h id (Ant.act (h id)), pool, false) := by
        simp [tickLoop, hcf]
      rw [hred]
      exact update_other _ _ _ j hjid

/-- When the pool covers the members of `pre` in sequence but not the next
member `x`, the loop deducts exactly `pre`'s rates and reports failure. -/
theorem tickLoop_fail_pool (pre : List AntId) (x : AntId) (post : List AntId) :
    ∀ (h : Heap) (pool : Int),
    (∀ i ∈ pre, 0 ≤ (h i).foodConsumption) →
    sumRates h pre ≤ pool →
    pool < sumRates h pre + (h x).foodConsumption →
    (tickLoop (pre ++ x :: post) h pool).2.1 = pool - sumRates h pre ∧
    (tickLoop (pre ++ x :: post) h pool).2.2 = false := by
  induction pre with
  | nil =>
    intro h pool _ _ hf
    rw [sumRates_nil] at hf
    have hfx : pool < (Ant.act (h x)).foodConsumption := by
      rw [act_foodConsumption]
      omega
    have hcf := consumeFood_neg (Ant.act (h x)) pool hfx
    have hred : tickLoop ([] ++ x :: post) h pool
        = (update h x (Ant.act (h x)), pool, false) := by
      simp [tickLoop, hcf]
    rw [hred, sumRates_nil]
    exact ⟨by simp, rfl⟩
  | cons p rest ih =>
    intro h pool hr hs hf
    have hp0 : 0 ≤ (h p).foodConsumption := hr p (List.mem_cons_self p rest)
    have hrestr : ∀ i ∈ rest, 0 ≤ (h i).foodConsumption :=
      fun i hi => hr i (List.mem_cons_of_mem p hi)
    have hrest0 : 0 ≤ sumRates h rest := sumRates_nonneg h rest hrestr
    rw [sumRates_cons] at hs hf
    have hc : (Ant.act (h p)).foodConsumption ≤ pool := by
      rw [act_foodConsumption]
      omega
    have hcf := consumeFood_pos (Ant.act (h p)) pool hc
    have hr2 : ∀ i ∈ rest, 0 ≤ ((update h p (Ant.act (h p))) i).foodConsumption := by
      intro i hi
      rw [update_act_foodConsumption]
      exact hrestr i hi
    have hs2 : sumRates (update h p (Ant.act (h p))) rest
        ≤ pool - (Ant.act (h p)).foodConsumption := by
      rw [sumRates_update_act, act_foodConsumption]
      omega
    have hf2 : pool - (Ant.act (h p)).foodConsumption
        < sumRates (update h p (Ant.act (h p))) rest
          + ((update h p (Ant.act (h p))) x).foodConsumption := by
      rw [sumRates_update_act, update_act_foodConsumption, act_foodConsumption]
      omega
    obtain ⟨ihp, ihb⟩ := ih (update h p (Ant.act (h p)))
      (pool - (Ant.act (h p)).foodConsumption) hr2 hs2 hf2
    have hred : tickLoop ((p :: rest) ++ x :: post) h pool
        = tickLoop (rest ++ x :: post) (update h p (Ant.act (h p)))
            (pool - (Ant.act (h p)).foodConsumption) := by
      simp [tickLoop, hcf]
    rw [hred]
    refine ⟨?_, ihb⟩
    rw [ihp, sumRates_update_act, act_foodConsumption, sumRates_cons]
    omega

/-- When the pool covers `pre` but not `x` and the member list has no
duplicates, the loop acts on every member of `pre` and on `x`, and leaves
every member after `x` untouched. -/
theorem tickLoop_fail_heap (pre : List AntId) (x : AntId) (post : List AntId) :
    ∀ (h : Heap) (pool : Int),
    (pre ++ x :: post).Nodup →
    (∀ i ∈ pre, 0 ≤ (h i).foodConsumption) →
    sumRates h pre ≤ pool →
    pool < sumRates h pre + (h x).foodConsumption →
    (∀ i ∈ pre, (tickLoop (pre ++ x :: post) h pool).1 i = Ant.act (h i)) ∧
    (tickLoop (pre ++ x :: post) h pool).1 x = Ant.act (h x) ∧
    (∀ i ∈ post, (tickLoop (pre ++ x :: post) h pool).1 i = h i) := by
  induction pre with
  | nil =>
    intro h pool hnd _ _ hf
    rw [sumRates_nil] at hf
    have hfx : pool < (Ant.act (h x)).foodConsumption := by
      rw [act_foodConsumption]
      omega
    have hcf := consumeFood_neg (Ant.act (h x)) pool hfx
    have hxpost : x ∉ post := (List.nodup_cons.mp (by simpa using hnd)).1
    have hred : tickLoop ([] ++ x :: post) h pool
        = (update h x (Ant.act (h x)), pool, false) := by
      simp [tickLoop, hcf]
    rw [hred]
    refine ⟨by simp, update_same h x _, ?_⟩
    intro i hi
    exact update_other h x _ i (fun e => hxpost (e ▸ hi))
  | cons p rest ih =>
    intro h pool hnd hr hs hf
    have hpnotin : p ∉ rest ++ x :: post := (List.nodup_cons.mp (by simpa using hnd)).1
    have hnd2 : (rest ++ x :: post).Nodup := (List.nodup_cons.mp (by simpa using hnd)).2
    have hp0 : 0 ≤ (h p).foodConsumption := hr p (List.mem_cons_self p rest)
    have hrestr : ∀ i ∈ rest, 0 ≤ (h i).foodConsumption :=
      fun i hi => hr i (List.mem_cons_of_mem p hi)
    have hrest0 : 0 ≤ sumRates h rest := sumRates_nonneg h rest hrestr
    rw [sumRates_cons] at hs hf
    have hc : (Ant.act (h p)).foodConsumption ≤ pool := by
      rw [act_foodConsumption]
      omega
    have hcf := consumeFood_pos (Ant.act (h p)) pool hc
    have hr2 : ∀ i ∈ rest, 0 ≤ ((update h p (Ant.act (h p))) i).foodConsumption := by
      intro i hi
      rw [update_act_foodConsumption]
      exact hrestr i hi
    have hs2 : sumRates (update h p (Ant.act (h p))) rest
        ≤ pool - (Ant.act (h p)).foodConsumption := by
      rw [sumRates_update_act, act_foodConsumption]
      omega
    have hf2 : pool - (Ant.act (h p)).foodConsumption
        < sumRates (update h p (Ant.act (h p))) rest
          + ((update h p (Ant.act (h p))) x).foodConsumption := by
      rw [sumRates_update_act, update_act_foodConsumption, act_foodConsumption]
      omega
    obtain ⟨ihpre, ihx, ihpost⟩ := ih (update h p (Ant.act (h p)))
      (pool - (Ant.act (h p)).foodConsumption) hnd2 hr2 hs2 hf2
    have hpx : p ≠ x := fun e => hpnotin (by simp [e])
    have hppost : p ∉ post := fun e => hpnotin (by simp [e])
    have hprest : p ∉ rest := fun e => hpnotin (by simp [e])
    have hred : tickLoop ((p :: rest) ++ x :: post) h pool
        = tickLoop (rest ++ x :: post) (update h p (Ant.act (h p)))
            (pool - (Ant.act (h p)).foodConsumption) := by
      simp [tickLoop, hcf]
    rw [hred]
    refine ⟨?_, ?_, ?_⟩
    · intro i hi
      rcases List.mem_cons.mp hi with rfl | hi2
      · rw [tickLoop_frame _ _ _ i hpnotin, update_same]
      · rw [ihpre i hi2, update_other h p _ i (fun e => hprest (e ▸ hi2))]
    · rw [ihx, update_other h p _ x (fun e => hpx e.symm)]
    · intro i hi
      rw [ihpost i hi, update_other h p _ i (fun e => hppost (e ▸ hi))]

/-- When the pool covers `pre` but not `x`, the withdrawals attempted are
exactly those of `pre` followed by the failing attempt of `x`; nothing after
`x` is attempted. -/
theorem tickAttempts_fail_split (pre : List AntId) (x : AntId) (post : List AntId) :
    ∀ (h : Heap) (pool : Int),
    (∀ i ∈ pre, 0 ≤ (h i).foodConsumption) →
    sumRates h pre ≤ pool →
    pool < sumRates h pre + (h x).foodConsumption →
    tickAttempts (pre ++ x :: post) h pool = pre ++ [x] := by
  induction pre with
  | nil =>
    intro h pool _ _ hf
    rw [sumRates_nil] at hf
    have hfx : pool < (Ant.act (h x)).foodConsumption := by
      rw [act_foodConsumption]
      omega
    have hcf := consumeFood_neg (Ant.act (h x)) pool hfx
    simp [tickAttempts, hcf]
  | cons p rest ih =>
    intro h pool hr hs hf
    have hp0 : 0 ≤ (h p).foodConsumption := hr p (List.mem_cons_self p rest)
    have hrestr : ∀ i ∈ rest, 0 ≤ (h i).foodConsumption :=
      fun i hi => hr i (List.mem_cons_of_mem p hi)
    have hrest0 : 0 ≤ sumRates h rest := sumRates_nonneg h rest hrestr
    rw [sumRates_cons] at hs hf
    have hc : (Ant.act (h p)).foodConsumption ≤ pool := by
      rw [act_foodConsumption]
      omega
    have hcf := consumeFood_pos (Ant.act (h p)) pool hc
    have hr2 : ∀ i ∈ rest, 0 ≤ ((update h p (Ant.act (h p))) i).foodConsumption := by
      intro i hi
      rw [update_act_foodConsumption]
      exact hrestr i hi
    have hs2 : sumRates (update h p (Ant.act (h p))) rest
        ≤ pool - (Ant.act (h p)).foodConsumption := by
      rw [sumRates_update_act, act_foodConsumption]
      omega
    have hf2 : pool - (Ant.act (h p)).foodConsumption
        < sumRates (update h p (Ant.act (h p))) rest
          + ((update h p (Ant.act (h p))) x).foodConsumption := by
      rw [sumRates_update_act, update_act_foodConsumption, act_foodConsumption]
      omega
    have ihr := ih (update h p (Ant.act (h p)))
      (pool - (Ant.act (h p)).foodConsumption) hr2 hs2 hf2
    have hred : tickAttempts ((p :: rest) ++ x :: post) h pool
        = p :: tickAttempts (rest ++ x :: post) (update h p (Ant.act (h p)))
            (pool - (Ant.act (h p)).foodConsumption) := by
      simp [tickAttempts, hcf]
    rw [hred, ihr]
    simp

/-! ## C9: the tick is not atomic at the first failed withdrawal -/

/-- C9: in an active colony with a leader whose (duplicate-free) member list
is `pre ++ x :: post` and whose pool covers `pre`'s withdrawals but not `x`'s,
one tick applies `step()` to every member of `pre` and to the failing member
`x` itself, leaves every member of `post` completely untouched, attempts the
withdrawals of exactly `pre` and `x` (nothing after `x`), deducts exactly
`pre`'s rates, and deactivates the colony. -/
theorem tick_fail_prefix (f : AntFarm) (h : Heap) (pre : List AntId) (x : AntId)
    (post : List AntId)
    (hact : f.isActive = true) (hq : f.queen.isSome = true)
    (hm : f.ants = pre ++ x :: post)
    (hnd : (pre ++ x :: post).Nodup)
    (hr : ∀ i ∈ pre, 0 ≤ (h i).foodConsumption)
    (hs : sumRates h pre ≤ f.foodSupply)
    (hf : f.foodSupply < sumRates h pre + (h x).foodConsumption) :
    (∀ i ∈ pre, (f.tick h).2 i = Ant.act (h i)) ∧
    (f.tick h).2 x = Ant.act (h x) ∧
    (∀ i ∈ post, (f.tick h).2 i = h i) ∧
    (f.tick h).1.isActive = false ∧
    (f.tick h).1.foodSupply = f.foodSupply - sumRates h pre ∧
    f.tickAttemptIds h = pre ++ [x] := by
  have hg := guard_eq_false f hact hq
  obtain ⟨hpool, hbool⟩ := tickLoop_fail_pool pre x post h f.foodSupply hr hs hf
  obtain ⟨hpre, hx, hpost⟩ := tickLoop_fail_heap pre x post h f.foodSupply hnd hr hs hf
  have hatt := tickAttempts_fail_split pre x post h f.foodSupply hr hs hf
  rw [tick_open f h hg]
  dsimp only
  rw [hm]
  refine ⟨hpre, hx, hpost, hbool, hpool, ?_⟩
  simp only [AntFarm.tickAttemptIds, hg, hm]
  simpa using hatt

/-- A live three-member farm with pool 15 (covers member 0, not member 1). -/
def farm15 : AntFarm :=
  { name := "Colony1", species := sp0, queen := some 0, ants := [0, 1, 2],
    foodSupply := 15, isActive := true }

/-- Witness for C9 on `farm15`: the failure happens at position 1. -/
theorem tick_fail_prefix_witness :
    (farm15.isActive = true ∧ farm15.queen.isSome = true ∧
     farm15.ants = [0] ++ 1 :: [2] ∧ ([0] ++ 1 :: [2]).Nodup ∧
     sumRates heap0 [0] ≤ farm15.foodSupply ∧
     farm15.foodSupply < sumRates heap0 [0] + (heap0 1).foodConsumption) ∧
    (farm15.tick heap0).2 0 = Ant.act (heap0 0) ∧
    (farm15.tick heap0).2 1 = Ant.act (heap0 1) ∧
    (farm15.tick heap0).2 2 = heap0 2 ∧
    (farm15.tick heap0).1.isActive = false ∧
    (farm15.tick heap0).1.foodSupply = farm15.foodSupply - sumRates heap0 [0] ∧
    farm15.tickAttemptIds heap0 = [0] ++ [1] := by
  have H := tick_fail_prefix farm15 heap0 [0] 1 [2] rfl rfl rfl (by decide)
    (by decide) (by decide) (by decide)
  exact ⟨⟨rfl, rfl, rfl, by decide, by decide, by decide⟩,
    H.1 0 (by decide), H.2.1, H.2.2.1 2 (by decide), H.2.2.2.1, H.2.2.2.2.1,
    H.2.2.2.2.2⟩

/-! ## C2: short-circuit withdrawal with members [A, B, C] -/

/-- A live three-member farm with pool 25 (covers members 0 and 1, not all
three). -/
def farm25 : AntFarm :=
  { name := "Colony1", species := sp0, queen := some 0, ants := [0, 1, 2],
    foodSupply := 25, isActive := true }

/-- C2 counterexample: on an active led colony with members `[0, 1, 2]` and a
pool (25) that covers the consumption of the first two members (10 each) but
not of all three, the tick DOES attempt the third member's withdrawal (the
attempt fails and deducts nothing) - `2` is among the ids whose `consumeFood`
the tick invokes, refuting "C's withdrawal is never attempted". -/
theorem tick_third_withdraw_attempted :
    farm25.isActive = true ∧ farm25.queen.isSome = true ∧ farm25.ants = [0, 1, 2] ∧
    (heap0 0).foodConsumption + (heap0 1).foodConsumption ≤ farm25.foodSupply ∧
    farm25.foodSupply < (heap0 0).foodConsumption + (heap0 1).foodConsumption
      + (heap0 2).foodConsumption ∧
    (2 : AntId) ∈ farm25.tickAttemptIds heap0 := by
  decide

/-- C2 (amended): with members `[A, B, C]` and a pool covering A's and B's
consumption but not all three, one tick deducts exactly A's and B's amounts,
attempts C's withdrawal as the last one (which fails and deducts nothing, so
no member after C would be attempted), and clears the active flag. -/
theorem tick_short_circuit_three (f : AntFarm) (h : Heap) (a b c : AntId)
    (hact : f.isActive = true) (hq : f.queen.isSome = true)
    (hm : f.ants = [a, b, c])
    (h0a : 0 ≤ (h a).foodConsumption) (h0b : 0 ≤ (h b).foodConsumption)
    (hab : (h a).foodConsumption + (h b).foodConsumption ≤ f.foodSupply)
    (habc : f.foodSupply < (h a).foodConsumption + (h b).foodConsumption
      + (h c).foodConsumption) :
    (f.tick h).1.foodSupply
      = f.foodSupply - ((h a).foodConsumption + (h b).foodConsumption) ∧
    (f.tick h).1.isActive = false ∧
    f.tickAttemptIds h = [a, b, c] := by
  have hsum : sumRates h [a, b] = (h a).foodConsumption + (h b).foodConsumption := by
    rw [sumRates_cons, sumRates_cons, sumRates_nil]
    ring
  have hr : ∀ i ∈ [a, b], 0 ≤ (h i).foodConsumption := by
    intro i hi
    rcases List.mem_cons.mp hi with rfl | hi2
    · exact h0a
    · rcases List.mem_cons.mp hi2 with rfl | hi3
      · exact h0b
      · cases hi3
  have hs : sumRates h [a, b] ≤ f.foodSupply := by
    rw [hsum]
    exact hab
  have hf : f.foodSupply < sumRates h [a, b] + (h c).foodConsumption := by
    rw [hsum]
    omega
  have hlist : f.ants = [a, b] ++ c :: [] := by
    rw [hm]
    simp
  have hg := guard_eq_false f hact hq
  obtain ⟨hpool, hbool⟩ := tickLoop_fail_pool [a, b] c [] h f.foodSupply hr hs hf
  have hatt := tickAttempts_fail_split [a, b] c [] h f.foodSupply hr hs hf
  rw [tick_open f h hg]
  dsimp only
  rw [hlist]
  refine ⟨by rw [hpool, hsum], hbool, ?_⟩
  simp only [AntFarm.tickAttemptIds, hg, hlist]
  simpa using hatt

/-- Witness for C2's amended theorem on `farm25`. -/
theorem tick_short_circuit_three_witness :
    (farm25.tick heap0).1.foodSupply = 5 ∧
    (farm25.tick heap0).1.isActive = false ∧
    farm25.tickAttemptIds heap0 = [0, 1, 2] := by
  have H := tick_short_circuit_three farm25 heap0 0 1 2 rfl rfl rfl (by decide)
    (by decide) (by decide) (by decide)
  refine ⟨?_, H.2.1, H.2.2⟩
  rw [H.1]
  decide

end AntSim
